import Mathlib

/-!
Verification development for the win-nlp-control dispatch pipeline.

This file gives a shallow embedding of the core of the repository:
the intent mapper (`src/intent_mapper.rs`), the action executor
(`src/task/executor.rs`), the task scheduler and web-API task registry
(`src/task/scheduler.rs`, `src/webapi/handlers.rs`) and the configuration
hot-reload watcher (`src/config.rs`), together with theorems settling the
specification claims about them.

Rust `HashMap<String, String>` values are modelled as association lists
with first-match lookup; `Uuid` task identities are modelled as natural
numbers handed out by a fresh counter; the platform controller (an external
collaborator per the spec) is modelled as an oracle from actions to
results.
-/

namespace WinNlp

/-- Parameter maps: the model of Rust `HashMap<String, String>`.
Lookup is by first matching key; claims only depend on lookup results, so
the association-list model is faithful for maps with unique keys. -/
abbrev ParameterMap := List (String × String)

/-- Lookup of a key, modelling `HashMap::get`. -/
def getParam (m : ParameterMap) (k : String) : Option String :=
  match m with
  | [] => none
  | (k2, v) :: rest => if k2 = k then some v else getParam rest k

/-- Insert-if-absent, modelling `map.entry(k).or_insert(v)`. -/
def orInsertParam (m : ParameterMap) (k : String) (v : String) : ParameterMap :=
  match getParam m k with
  | some _ => m
  | none => m ++ [(k, v)]

/-- Merge `defaults` into `base` with insert-if-absent semantics, modelling
the `for (k, v) in alias_params { entry(k).or_insert(v) }` loops of
`try_apply_alias` in `src/intent_mapper.rs`. -/
def mergeParams (base : ParameterMap) (defaults : ParameterMap) : ParameterMap :=
  defaults.foldl (fun acc kv => orInsertParam acc kv.1 kv.2) base

/-- Merge an optional defaults map, modelling `if let Some(ref p) = alias.parameters`. -/
def mergeOptParams (base : ParameterMap) (defaults : Option ParameterMap) : ParameterMap :=
  match defaults with
  | some d => mergeParams base d
  | none => base

/-- The result of natural language processing analysis (`NLPResult` in
`src/nlp.rs`): an intent string plus a parameter map. -/
structure NLPResult where
  intent : String
  parameters : ParameterMap

/-- Alias configuration definition (`AliasConfig` in `src/config.rs`).
An inductive type because `steps` nests the type inside `Option`/`List`. -/
inductive AliasConfig : Type where
  | mk (aliasStr : String) (intent : String) (parameters : Option ParameterMap)
       (command_type : Option String) (steps : Option (List AliasConfig)) : AliasConfig

/-- The `alias` field of an `AliasConfig`. -/
def AliasConfig.aliasName : AliasConfig → String
  | .mk a _ _ _ _ => a

/-- The `intent` field of an `AliasConfig`. -/
def AliasConfig.intent : AliasConfig → String
  | .mk _ i _ _ _ => i

/-- The `parameters` field of an `AliasConfig`. -/
def AliasConfig.parameters : AliasConfig → Option ParameterMap
  | .mk _ _ p _ _ => p

/-- The `command_type` field of an `AliasConfig` ("single" or "multi"). -/
def AliasConfig.command_type : AliasConfig → Option String
  | .mk _ _ _ c _ => c

/-- The `steps` field of an `AliasConfig`. -/
def AliasConfig.steps : AliasConfig → Option (List AliasConfig)
  | .mk _ _ _ _ s => s

/-- Application configuration (`AppConfig` in `src/config.rs`). -/
structure AppConfig where
  aliases : List AliasConfig
  language : String

/-- Action derived from natural language input (`Action` in
`src/intent_mapper.rs`), a closed tagged union. -/
inductive Action : Type where
  | ButtonClick (label : String)
  | ButtonDoubleClick (label : String)
  | EditEnterText (label : String) (text : String)
  | EditSelectText (label : String) (start : Option Nat) (stop : Option Nat)
  | EditCopyText (label : String)
  | EditCutText (label : String)
  | EditClearField (label : String)
  | EditDeleteText (label : String)
  | EditPasteText (label : String) (text : Option String)
  | StaticGetText (label : String)
  | SetText (label : String) (text : String)
  | SetFocus (label : String)
  | CheckboxSetState (label : String) (state : Bool)
  | RadioSelect (label : String) (variant : Option String)
  | TreeViewSelect (label : String) (node : Option String)
  | TreeViewExpand (label : String) (node : Option String)
  | ListViewSelectItem (label : String) (item : String)
  | TabControlSelectTab (label : String) (tab : String)
  | WindowResize (width : Nat) (height : Nat)
  | WindowMinimize (label : String)
  | WindowMaximize (label : String)
  | WindowClose (label : String)
  | WindowMove (label : String) (x : Nat) (y : Nat)
  | LaunchApplication (app : String)
  | FocusApplication (app : String)
  | GroupWindows (group : String) (windows : String)
  | LaunchObject (object : String)
  | FocusObject (object : String)
  | WindowMinimizeAll
  | WindowMaximizeAll
  | WindowCloseAll
  | OpenFileProperties (file : String)
  | ListSelect (label : String) (item : String)
  | KeyPress (key : String)
  | Scroll (direction : String) (amount : Option Nat)
  | Screenshot
  | SpinnerAdjust (label : String) (operation : String) (value : Nat)
  | SelectFiles (criteria : String)
  | FileOperation (operation : String)
  | PasteFiles (destination : String)
  | CreateDirectory (name : String)
  | DeleteDirectory (name : String)
  | CreateFile (name : String)
  | DeleteFile (name : String)
  | MultiStep (steps : List Action)
  | Unknown (hint : String)

/-- Numeric parsing, modelling `s.parse::<u32>()`: decimal digits with a
u32 range check (overflow yields `None`, as in Rust). -/
def parseU32 (s : String) : Option Nat :=
  match s.toNat? with
  | some n => if n < 4294967296 then some n else none
  | none => none

/-- The fixed fallback hint of the unknown-intent arm of
`map_intent_impl` in `src/intent_mapper.rs`. -/
def fallbackHint : String := "Команда не распознана. Попробуйте уточнить запрос."

/-- The set of intent strings recognised by a non-fallback arm of the
`match` in `map_intent_impl` (`src/intent_mapper.rs`, lines 108-260). -/
def knownIntents : List String :=
  ["button_click", "button_double_click", "edit_enter_text", "edit_select_text",
   "edit_copy_text", "edit_cut_text", "edit_clear_field", "edit_delete_text",
   "edit_paste_text", "static_get_text", "set_text", "set_focus",
   "checkbox_set_state", "radio_select", "treeview_select", "treeview_expand",
   "listview_select_item", "tabcontrol_select_tab", "window_resize",
   "window_minimize", "window_maximize", "window_close", "window_move",
   "launch_object", "launch_application", "focus_object", "focus_application",
   "group_windows", "window_minimize_all", "window_maximize_all",
   "window_close_all", "open_file", "list_select", "key_press", "scroll",
   "screenshot", "spinner_adjust", "select_files", "copy_file", "cut_file",
   "delete_file", "move_file", "rename_file", "paste_files",
   "create_directory", "delete_directory", "create_file", "multi_step"]

/-- Direct mapping `map_intent_impl` of `src/intent_mapper.rs`: a pure,
total function from an NLP result to an `Action`.  The Rust `match` on
`nlp_result.intent.as_str()` is translated to an if-chain in the source
arm order, which preserves first-arm-wins semantics (relevant because the
`"delete_file"` string occurs in two arms). -/
def map_intent_impl (r : NLPResult) : Action :=
  if r.intent = "button_click" then
    Action.ButtonClick ((getParam r.parameters "label").getD "")
  else if r.intent = "button_double_click" then
    Action.ButtonDoubleClick ((getParam r.parameters "label").getD "")
  else if r.intent = "edit_enter_text" then
    Action.EditEnterText ((getParam r.parameters "label").getD "")
      ((getParam r.parameters "text").getD "")
  else if r.intent = "edit_select_text" then
    Action.EditSelectText ((getParam r.parameters "label").getD "")
      ((getParam r.parameters "start").bind parseU32)
      ((getParam r.parameters "end").bind parseU32)
  else if r.intent = "edit_copy_text" then
    Action.EditCopyText ((getParam r.parameters "label").getD "")
  else if r.intent = "edit_cut_text" then
    Action.EditCutText ((getParam r.parameters "label").getD "")
  else if r.intent = "edit_clear_field" then
    Action.EditClearField ((getParam r.parameters "label").getD "")
  else if r.intent = "edit_delete_text" then
    Action.EditDeleteText ((getParam r.parameters "label").getD "")
  else if r.intent = "edit_paste_text" then
    Action.EditPasteText ((getParam r.parameters "label").getD "")
      (getParam r.parameters "text")
  else if r.intent = "static_get_text" then
    Action.StaticGetText ((getParam r.parameters "label").getD "")
  else if r.intent = "set_text" then
    Action.SetText ((getParam r.parameters "label").getD "")
      ((getParam r.parameters "text").getD "")
  else if r.intent = "set_focus" then
    Action.SetFocus ((getParam r.parameters "label").getD "")
  else if r.intent = "checkbox_set_state" then
    Action.CheckboxSetState ((getParam r.parameters "label").getD "")
      (((getParam r.parameters "state").getD "false") == "true")
  else if r.intent = "radio_select" then
    Action.RadioSelect ((getParam r.parameters "label").getD "")
      (getParam r.parameters "variant")
  else if r.intent = "treeview_select" then
    Action.TreeViewSelect ((getParam r.parameters "label").getD "")
      (getParam r.parameters "node")
  else if r.intent = "treeview_expand" then
    Action.TreeViewExpand ((getParam r.parameters "label").getD "")
      (getParam r.parameters "node")
  else if r.intent = "listview_select_item" then
    Action.ListViewSelectItem ((getParam r.parameters "label").getD "")
      ((getParam r.parameters "item").getD "")
  else if r.intent = "tabcontrol_select_tab" then
    Action.TabControlSelectTab ((getParam r.parameters "label").getD "")
      ((getParam r.parameters "tab").getD "")
  else if r.intent = "window_resize" then
    Action.WindowResize (((getParam r.parameters "width").bind parseU32).getD 800)
      (((getParam r.parameters "height").bind parseU32).getD 600)
  else if r.intent = "window_minimize" then
    Action.WindowMinimize ((getParam r.parameters "label").getD "")
  else if r.intent = "window_maximize" then
    Action.WindowMaximize ((getParam r.parameters "label").getD "")
  else if r.intent = "window_close" then
    Action.WindowClose ((getParam r.parameters "label").getD "")
  else if r.intent = "window_move" then
    Action.WindowMove ((getParam r.parameters "label").getD "")
      (((getParam r.parameters "x").bind parseU32).getD 0)
      (((getParam r.parameters "y").bind parseU32).getD 0)
  else if r.intent = "launch_object" ∨ r.intent = "launch_application" then
    Action.LaunchApplication
      ((getParam r.parameters "object" <|> getParam r.parameters "app").getD "")
  else if r.intent = "focus_object" ∨ r.intent = "focus_application" then
    Action.FocusApplication
      ((getParam r.parameters "object" <|> getParam r.parameters "app").getD "")
  else if r.intent = "group_windows" then
    Action.GroupWindows ((getParam r.parameters "group").getD "")
      ((getParam r.parameters "windows").getD "")
  else if r.intent = "window_minimize_all" then
    Action.WindowMinimizeAll
  else if r.intent = "window_maximize_all" then
    Action.WindowMaximizeAll
  else if r.intent = "window_close_all" then
    Action.WindowCloseAll
  else if r.intent = "open_file" then
    Action.OpenFileProperties ((getParam r.parameters "file").getD "")
  else if r.intent = "list_select" then
    Action.ListSelect ((getParam r.parameters "label").getD "")
      ((getParam r.parameters "item").getD "")
  else if r.intent = "key_press" then
    Action.KeyPress ((getParam r.parameters "key").getD "")
  else if r.intent = "scroll" then
    Action.Scroll ((getParam r.parameters "direction").getD "up")
      ((getParam r.parameters "amount").bind parseU32)
  else if r.intent = "screenshot" then
    Action.Screenshot
  else if r.intent = "spinner_adjust" then
    Action.SpinnerAdjust ((getParam r.parameters "label").getD "")
      ((getParam r.parameters "operation").getD "")
      (((getParam r.parameters "value").bind parseU32).getD 0)
  else if r.intent = "select_files" then
    Action.SelectFiles ((getParam r.parameters "criteria").getD "")
  else if r.intent = "copy_file" ∨ r.intent = "cut_file" ∨ r.intent = "delete_file"
      ∨ r.intent = "move_file" ∨ r.intent = "rename_file" then
    Action.FileOperation r.intent
  else if r.intent = "paste_files" then
    Action.PasteFiles ((getParam r.parameters "destination").getD "")
  else if r.intent = "create_directory" then
    Action.CreateDirectory ((getParam r.parameters "name").getD "")
  else if r.intent = "delete_directory" then
    Action.DeleteDirectory ((getParam r.parameters "name").getD "")
  else if r.intent = "create_file" then
    Action.CreateFile ((getParam r.parameters "name").getD "")
  else if r.intent = "delete_file" then
    Action.DeleteFile ((getParam r.parameters "name").getD "")
  else if r.intent = "multi_step" then
    Action.MultiStep []
  else
    Action.Unknown ((getParam r.parameters "hint").getD fallbackHint)

/-- Lower-casing of a string, modelling Rust `to_lowercase` (restricted
to the ASCII case mapping, which is faithful for intent and alias
strings). -/
def strToLower (s : String) : String :=
  ⟨s.data.map Char.toLower⟩

/-- Whether an alias rule matches an intent, modelling
`alias.alias.to_lowercase() == nlp_result.intent.to_lowercase()`. -/
def aliasMatches (intent : String) (a : AliasConfig) : Bool :=
  strToLower a.aliasName == strToLower intent

/-- The per-step NLP result built inside the multi branch of
`try_apply_alias`: a fresh clone of the ORIGINAL caller result, with the
intent replaced by the step rule target and the step rule defaults merged
insert-if-absent. -/
def stepResult (r : NLPResult) (st : AliasConfig) : NLPResult :=
  { intent := st.intent, parameters := mergeOptParams r.parameters st.parameters }

/-- The body applied to the first matching alias rule in
`try_apply_alias` (`src/intent_mapper.rs`, lines 64-91): build
`new_result` by replacing the intent and merging the rule defaults; if
`command_type` is "multi" (case-insensitively) and `steps` is present,
map each step through `map_intent_impl` on a fresh clone of the original
result; otherwise resolve `new_result` through `map_intent_impl`. -/
def applyAlias (r : NLPResult) (a : AliasConfig) : Action :=
  let newResult : NLPResult :=
    { intent := a.intent, parameters := mergeOptParams r.parameters a.parameters }
  match a.command_type with
  | some ct =>
    if strToLower ct = "multi" then
      match a.steps with
      | some steps => Action.MultiStep (steps.map (fun st => map_intent_impl (stepResult r st)))
      | none => map_intent_impl newResult
    else map_intent_impl newResult
  | none => map_intent_impl newResult

/-- The alias scan of `try_apply_alias`: first matching rule wins,
in configured table order. -/
def try_apply_alias (r : NLPResult) : List AliasConfig → Option Action
  | [] => none
  | a :: rest =>
    if aliasMatches r.intent a then some (applyAlias r a)
    else try_apply_alias r rest

/-- Public mapping `map_intent` of `src/intent_mapper.rs`.  The
`shared_config.lock().ok()?` / `as_ref()?` steps mean a missing
configuration makes `try_apply_alias` return `None`, falling back to the
direct mapping. -/
def map_intent (r : NLPResult) (config : Option AppConfig) : Action :=
  match config with
  | some cfg =>
    match try_apply_alias r cfg.aliases with
    | some a => a
    | none => map_intent_impl r
  | none => map_intent_impl r


/-! ### Concrete alias fixtures used by witnesses and counterexamples -/

/-- The alias of the spec example: `open_chrome` maps to
`launch_application` with default parameter `app = chrome.exe`. -/
def chromeAlias : AliasConfig :=
  .mk "open_chrome" "launch_application" (some [("app", "chrome.exe")]) none none

/-- The single step of the multi-alias fixture: its target intent
`open_chrome` is itself an alias of the same table. -/
def chromeStep : AliasConfig := .mk "s1" "open_chrome" none none none

/-- A multi-kind alias whose only step targets the `open_chrome` alias. -/
def macroAlias : AliasConfig :=
  .mk "macro1" "multi_step" none (some "multi") (some [chromeStep])

/-- An alias table holding the multi alias followed by the chrome alias. -/
def macroConfig : AppConfig := ⟨[macroAlias, chromeAlias], "ru"⟩

/-- An alias table holding only the chrome alias. -/
def chromeConfig : AppConfig := ⟨[chromeAlias], "ru"⟩

/-! ### Action executor (`src/task/executor.rs`) -/

/-- Result of a platform call (`PlatformResult<()>`, i.e. `Result<(), String>`). -/
abbrev PlatformResult := Except String Unit

/-- The `WinUiController` of `src/platform/windows/controller.rs` is an
external collaborator (native UI-automation calls); it is modelled as an
oracle giving the outcome of the single blocking controller call made for
each non-composite action (including the `Unsupported action` error of
the fallback arm of `execute_action_on_platform`). -/
abbrev Controller := Action → PlatformResult

mutual

/-- `execute_action_on_platform` of `src/task/executor.rs`: a composite
`MultiStep` runs its steps in order, short-circuiting on the first error
via the `?` operator; every other action is one blocking controller
call, abstracted by the oracle `ctrl`. -/
def execute_action_on_platform (ctrl : Controller) : Action → PlatformResult
  | Action.MultiStep steps => execSteps ctrl steps
  | a => ctrl a

/-- The `for step in steps { execute_action_on_platform(step, controller)?; }`
loop of the `MultiStep` arm. -/
def execSteps (ctrl : Controller) : List Action → PlatformResult
  | [] => Except.ok ()
  | s :: rest =>
    match execute_action_on_platform ctrl s with
    | Except.ok _ => execSteps ctrl rest
    | Except.error e => Except.error e

end

/-- A concrete controller for witnesses: every call succeeds except
`Screenshot`, which fails. -/
def screenshotFails : Controller := fun a =>
  match a with
  | Action.Screenshot => Except.error "boom"
  | _ => Except.ok ()

/-! ### Web-API task registry (`src/webapi/handlers.rs`) -/

/-- Task lifecycle status (`TaskStatus` in `src/task/model.rs`). -/
inductive TaskStatus : Type where
  | queued
  | running
  | completed
  | failed (msg : String)
  | cancelled
  | stopping
deriving DecidableEq, Repr

/-- A registry entry of `AppState.tasks` in `src/webapi/handlers.rs`:
the serializable `TaskInfo` (name and status; the id is the map key)
plus presence flags for the one-shot cancellation sender and the spawned
join handle. -/
structure TaskRecord where
  name : String
  status : TaskStatus
  hasCancelTx : Bool
  hasHandle : Bool
deriving DecidableEq, Repr

/-- Association-list lookup keyed by task id, modelling `HashMap::get`
on the `Uuid`-keyed task map. -/
def lookupTask {α : Type} : List (Nat × α) → Nat → Option α
  | [], _ => none
  | (k, v) :: rest, id2 => if k = id2 then some v else lookupTask rest id2

/-- Removal of a key, modelling `HashMap::remove`; keys are unique in a
map, so dropping every pair with the key is faithful. -/
def removeTask {α : Type} : List (Nat × α) → Nat → List (Nat × α)
  | [], _ => []
  | (k, v) :: rest, id2 =>
    if k = id2 then removeTask rest id2 else (k, v) :: removeTask rest id2

/-- The response of the `/stop={task_id}` handler, reduced to its two
shapes: 200 with the removed record, or 404 not-found. -/
inductive StopResponse : Type where
  | ok (rec : TaskRecord)
  | notFound
deriving DecidableEq, Repr

/-- `stop_task` of `src/webapi/handlers.rs` as a function of the task
map: `tasks_lock.remove(&id)` either yields the record -- which is
removed, its cancel signal sent and its handle aborted (side effects on
the record owner only) -- or the handler answers not-found. -/
def stop_task (id2 : Nat) (tasks : List (Nat × TaskRecord)) :
    StopResponse × List (Nat × TaskRecord) :=
  match lookupTask tasks id2 with
  | some rec => (StopResponse.ok rec, removeTask tasks id2)
  | none => (StopResponse.notFound, tasks)

/-- A sample registry record for witnesses. -/
def sampleRecord : TaskRecord :=
  { name := "Task: demo", status := TaskStatus.queued, hasCancelTx := true, hasHandle := true }

/-! ### Configuration hot-reload watcher (`src/config.rs`) -/

/-- A debounced file event received by the watcher thread of
`init_shared_config`, carrying for Write/Create the result of the
`AppConfig::load_from_file` call the watcher then performs (the load and
validation of the changed file is an external IO step, so its outcome is
data here). -/
inductive WatchEvent : Type where
  | write (load : Except String AppConfig)
  | create (load : Except String AppConfig)
  | other

/-- One iteration of the watcher loop of `init_shared_config`
(`src/config.rs`, lines 130-149): on Write/Create a successful load
replaces the shared configuration, a failed load leaves it unchanged
(the error is only printed); any other event is ignored. -/
def applyWatchEvent (current : Option AppConfig) (ev : WatchEvent) : Option AppConfig :=
  match ev with
  | WatchEvent.write (Except.ok c) => some c
  | WatchEvent.write (Except.error _) => current
  | WatchEvent.create (Except.ok c) => some c
  | WatchEvent.create (Except.error _) => current
  | WatchEvent.other => current

/-- The watcher loop over a sequence of debounced events. -/
def runWatcher (current : Option AppConfig) (evs : List WatchEvent) : Option AppConfig :=
  evs.foldl applyWatchEvent current

/-- The successful load carried by an event, if any. -/
def WatchEvent.loadOk : WatchEvent → Option AppConfig
  | WatchEvent.write (Except.ok c) => some c
  | WatchEvent.create (Except.ok c) => some c
  | _ => none

/-! ### Scheduler and task lifecycle state machine
(`src/task/scheduler.rs` and `src/webapi/handlers.rs`) -/

/-- A scheduled task as seen by the worker: its id and the outcome its
operation closure will produce (`none` models `Ok(())`, `some e` models
`Err(e)`); running the closure and writing the terminal status is the
`workerFinish` step below. -/
structure MTask where
  id : Nat
  op : Option String
deriving DecidableEq, Repr

/-- Observable events of the dispatch pipeline: a registry status write,
the start or end of a task operation on the worker thread, and the
worker leaving its receive loop. -/
inductive Event : Type where
  | write (id2 : Nat) (st : TaskStatus)
  | execStart (id2 : Nat)
  | execEnd (id2 : Nat)
  | workerExit
deriving DecidableEq, Repr

/-- Global state of the dispatch pipeline: the fresh-id counter
(`Uuid::new_v4` freshness), the webapi task registry (id to status), the
mpsc channel buffer in FIFO order, the task currently running on the
single worker, channel and worker liveness, the ids whose one-shot
cancel signal has been sent with the supervisory wrapper still pending,
the operation outcome recorded per submitted id (ghost data used to
state results), the ids enqueued to the channel in submission order
(ghost), and the event trace, most recent first. -/
structure SysState where
  nextId : Nat
  registry : List (Nat × TaskStatus)
  queue : List MTask
  running : Option MTask
  chanOpen : Bool
  workerAlive : Bool
  cancelSent : List Nat
  ops : List (Nat × Option String)
  subOrder : List Nat
  trace : List Event
deriving DecidableEq, Repr

/-- The terminal status the task closure of `execute_command` writes for
an operation result: `Ok(_) -> Completed`, `Err(e) -> Failed(e)`
(`src/webapi/handlers.rs`, lines 117-122). -/
def finStatus : Option String → TaskStatus
  | none => TaskStatus.completed
  | some e => TaskStatus.failed e

/-- In-place update of the status of a present key, modelling
`get_mut(&id)` followed by a field assignment. -/
def setTask {α : Type} (l : List (Nat × α)) (id2 : Nat) (v : α) : List (Nat × α) :=
  l.map (fun p => if p.1 = id2 then (id2, v) else p)

/-- The initial state: empty registry and queue, channel open, worker
alive. -/
def initState : SysState :=
  { nextId := 0, registry := [], queue := [], running := none, chanOpen := true,
    workerAlive := true, cancelSent := [], ops := [], subOrder := [], trace := [] }

/-- One transition of the pipeline.  `submit` models the
`execute_command` handler: a fresh id, a `Queued` registry record, and
the task sent to the worker channel (when the channel is closed the send
error is only logged and the task dropped).  `workerBegin` and
`workerFinish` split the worker loop body of `TaskScheduler::new`: pull
the next task in FIFO arrival order when idle, run its closure to
completion; the closure then writes the terminal status if the record is
still present (`get_mut`).  `stopFound` models `stop_task` on a present
id: the record is removed, the cancel signal sent and the wrapper handle
aborted.  `wrapperFire` models the `tokio::select!` wrapper body
observing the cancel signal: it writes `Cancelled` only if the record is
still present.  `closeChan` models dropping the channel sender, and
`workerEnd` models `rx.recv()` returning `Err` on a closed drained
channel, breaking the loop. -/
inductive Step : SysState → SysState → Prop
  | submit (s : SysState) (op : Option String) :
      Step s { s with
        nextId := s.nextId + 1,
        registry := (s.nextId, TaskStatus.queued) :: s.registry,
        queue := if s.chanOpen then s.queue ++ [⟨s.nextId, op⟩] else s.queue,
        ops := (s.nextId, op) :: s.ops,
        subOrder := if s.chanOpen then s.subOrder ++ [s.nextId] else s.subOrder,
        trace := Event.write s.nextId TaskStatus.queued :: s.trace }
  | workerBegin (s : SysState) (t : MTask) (rest : List MTask) :
      s.workerAlive = true → s.running = none → s.queue = t :: rest →
      Step s { s with
        queue := rest,
        running := some t,
        trace := Event.execStart t.id :: s.trace }
  | workerFinish (s : SysState) (t : MTask) :
      s.running = some t →
      Step s { s with
        running := none,
        registry := if (lookupTask s.registry t.id).isSome
                    then setTask s.registry t.id (finStatus t.op) else s.registry,
        trace := (if (lookupTask s.registry t.id).isSome
                  then [Event.write t.id (finStatus t.op)] else []) ++
                 Event.execEnd t.id :: s.trace }
  | stopFound (s : SysState) (id2 : Nat) (st : TaskStatus) :
      lookupTask s.registry id2 = some st →
      Step s { s with
        registry := removeTask s.registry id2,
        cancelSent := id2 :: s.cancelSent }
  | wrapperFire (s : SysState) (id2 : Nat) :
      id2 ∈ s.cancelSent →
      Step s { s with
        cancelSent := s.cancelSent.erase id2,
        registry := if (lookupTask s.registry id2).isSome
                    then setTask s.registry id2 TaskStatus.cancelled else s.registry,
        trace := if (lookupTask s.registry id2).isSome
                 then Event.write id2 TaskStatus.cancelled :: s.trace else s.trace }
  | closeChan (s : SysState) :
      Step s { s with chanOpen := false }
  | workerEnd (s : SysState) :
      s.workerAlive = true → s.running = none → s.queue = [] → s.chanOpen = false →
      Step s { s with
        workerAlive := false,
        trace := Event.workerExit :: s.trace }

/-- Finitely many transitions. -/
inductive Steps : SysState → SysState → Prop
  | refl (s : SysState) : Steps s s
  | tail {s t u : SysState} : Steps s t → Step t u → Steps s u

/-- Reachability from the initial state. -/
def Reach (s : SysState) : Prop := Steps initState s

/-- The status written for `id2` by an event, if any. -/
def Event.writeFor (id2 : Nat) : Event → Option TaskStatus
  | Event.write i st => if i = id2 then some st else none
  | _ => none

/-- Status writes observable for an id, most recent first. -/
def statusWrites (id2 : Nat) (tr : List Event) : List TaskStatus :=
  tr.filterMap (Event.writeFor id2)

/-- The id whose operation an event starts, if any. -/
def Event.startId : Event → Option Nat
  | Event.execStart i => some i
  | _ => none

/-- The id whose operation an event finishes, if any. -/
def Event.endId : Event → Option Nat
  | Event.execEnd i => some i
  | _ => none

/-- Ids of operation starts in chronological (oldest first) order. -/
def chronStarts (tr : List Event) : List Nat :=
  (tr.filterMap Event.startId).reverse

/-- Number of operation starts in a trace. -/
def startCount (tr : List Event) : Nat := (tr.filterMap Event.startId).length

/-- Number of operation completions in a trace. -/
def endCount (tr : List Event) : Nat := (tr.filterMap Event.endId).length

/-- Ids of `Running` status writes in chronological (oldest first)
order. -/
def runningWrites (tr : List Event) : List Nat :=
  (tr.filterMap (fun e => match e with
    | Event.write i TaskStatus.running => some i
    | _ => none)).reverse

/-- The id an event mentions, if any. -/
def Event.idOf : Event → Option Nat
  | Event.write i _ => some i
  | Event.execStart i => some i
  | Event.execEnd i => some i
  | Event.workerExit => none

/-- Allowed per-id status-write histories (most recent first): nothing,
the single `Queued` write of submission, or one terminal write matching
the recorded operation outcome (`Completed` on success, `Failed(reason)`
on error) over the `Queued` write.  In particular `Running` is never
written and nothing is written after a terminal write. -/
def writesOK (s : SysState) (id2 : Nat) : Prop :=
  statusWrites id2 s.trace = [] ∨
  statusWrites id2 s.trace = [TaskStatus.queued] ∨
  ∃ op, lookupTask s.ops id2 = some op ∧
    statusWrites id2 s.trace = [finStatus op, TaskStatus.queued]

/-- The reachable state used by lifecycle witnesses and counterexamples:
tasks 0, 1, 2 submitted in that order (task 1 failing with "oops"), then
all three run to completion by the worker in FIFO order. -/
def demoFinal : SysState :=
  { nextId := 3,
    registry := [(2, TaskStatus.completed), (1, TaskStatus.failed "oops"),
                 (0, TaskStatus.completed)],
    queue := [], running := none, chanOpen := true, workerAlive := true,
    cancelSent := [],
    ops := [(2, none), (1, some "oops"), (0, none)],
    subOrder := [0, 1, 2],
    trace := [Event.write 2 TaskStatus.completed, Event.execEnd 2, Event.execStart 2,
              Event.write 1 (TaskStatus.failed "oops"), Event.execEnd 1, Event.execStart 1,
              Event.write 0 TaskStatus.completed, Event.execEnd 0, Event.execStart 0,
              Event.write 2 TaskStatus.queued, Event.write 1 TaskStatus.queued,
              Event.write 0 TaskStatus.queued] }

/-- A reachable state whose channel has been closed. -/
def closedState : SysState := { initState with chanOpen := false }

/-- A reachable state whose worker has exited after the channel closed. -/
def deadState : SysState :=
  { initState with
    chanOpen := false,
    workerAlive := false,
    trace := [Event.workerExit] }

/-- Inductive invariant of the pipeline state machine: freshness of the
id counter, consistency of registry, queue, running task, cancel
signals, ghost operation records and event trace. -/
structure Inv (s : SysState) : Prop where
  reg_lt : ∀ p ∈ s.registry, p.1 < s.nextId
  queue_lt : ∀ t ∈ s.queue, t.id < s.nextId
  run_lt : ∀ t, s.running = some t → t.id < s.nextId
  cancel_lt : ∀ i ∈ s.cancelSent, i < s.nextId
  trace_lt : ∀ e ∈ s.trace, ∀ i, Event.idOf e = some i → i < s.nextId
  cancel_reg : ∀ i ∈ s.cancelSent, lookupTask s.registry i = none
  queue_nodup : (s.queue.map MTask.id).Nodup
  run_notin_queue : ∀ t, s.running = some t → ∀ u ∈ s.queue, u.id ≠ t.id
  queue_ops : ∀ t ∈ s.queue, lookupTask s.ops t.id = some t.op
  run_ops : ∀ t, s.running = some t → lookupTask s.ops t.id = some t.op
  queue_writes : ∀ t ∈ s.queue, statusWrites t.id s.trace = [TaskStatus.queued]
  run_writes : ∀ t, s.running = some t → statusWrites t.id s.trace = [TaskStatus.queued]
  writes_ok : ∀ i, writesOK s i
  fifo : chronStarts s.trace ++ s.queue.map MTask.id = s.subOrder
  counts : startCount s.trace = endCount s.trace +
    (match s.running with | some _ => 1 | none => 0)
  dead_run : s.workerAlive = false → s.running = none

/-! ## Theorems -/

/-! ### Lemmas about parameter maps and the alias scan -/

/-- Unfolding equation for `getParam` on a cons cell. -/
theorem getParam_cons (k2 v2 : String) (rest : ParameterMap) (k : String) :
    getParam ((k2, v2) :: rest) k = if k2 = k then some v2 else getParam rest k := rfl

/-- A binding present in `m` survives appending more bindings. -/
theorem getParam_append_of_some {m l : ParameterMap} {k : String} {v : String}
    (h : getParam m k = some v) : getParam (m ++ l) k = some v := by
  induction m with
  | nil => simp [getParam] at h
  | cons p rest ih =>
    obtain ⟨k2, v2⟩ := p
    rw [getParam_cons] at h
    rw [List.cons_append, getParam_cons]
    by_cases hk : k2 = k
    · simpa [hk] using h
    · simp only [hk, if_false] at h ⊢
      exact ih h

/-- Insert-if-absent never changes an existing binding. -/
theorem getParam_orInsert_of_some {m : ParameterMap} {k v k2 v2}
    (h : getParam m k = some v) : getParam (orInsertParam m k2 v2) k = some v := by
  unfold orInsertParam
  cases hm : getParam m k2 with
  | some w => exact h
  | none => exact getParam_append_of_some h

/-- Merging defaults insert-if-absent keeps every caller binding:
explicit caller values win over alias defaults. -/
theorem getParam_mergeParams_of_some {d : ParameterMap} :
    ∀ {base : ParameterMap} {k v}, getParam base k = some v →
      getParam (mergeParams base d) k = some v := by
  induction d with
  | nil => intro base k v h; exact h
  | cons p rest ih =>
    intro base k v h
    simp only [mergeParams, List.foldl_cons] at *
    exact ih (getParam_orInsert_of_some h)

/-- `mergeOptParams` keeps every caller binding. -/
theorem getParam_mergeOptParams_of_some {d : Option ParameterMap} {base : ParameterMap} {k v}
    (h : getParam base k = some v) : getParam (mergeOptParams base d) k = some v := by
  cases d with
  | none => exact h
  | some d0 => exact getParam_mergeParams_of_some h

/-- The alias scan returns the first rule matched by `List.find?`. -/
theorem try_apply_alias_of_find? {r : NLPResult} {l : List AliasConfig} {a : AliasConfig}
    (h : l.find? (aliasMatches r.intent) = some a) :
    try_apply_alias r l = some (applyAlias r a) := by
  induction l with
  | nil => simp at h
  | cons b rest ih =>
    unfold try_apply_alias
    by_cases hb : aliasMatches r.intent b
    · rw [List.find?_cons_of_pos _ hb] at h
      cases h
      simp [hb]
    · rw [List.find?_cons_of_neg _ hb] at h
      simp [hb, ih h]

/-- Any intent outside `knownIntents` falls through every arm of
`map_intent_impl` to the fallback arm, yielding `Unknown` with the
caller-supplied hint when present and the fixed fallback message
otherwise. -/
theorem map_intent_impl_of_unknown_intent (r : NLPResult) (h : r.intent ∉ knownIntents) :
    map_intent_impl r = Action.Unknown ((getParam r.parameters "hint").getD fallbackHint) := by
  simp only [knownIntents, List.mem_cons, List.mem_singleton, not_or] at h
  obtain ⟨h1, h2, h3, h4, h5, h6, h7, h8, h9, h10, h11, h12, h13, h14, h15, h16, h17, h18, h19, h20, h21, h22, h23, h24, h25, h26, h27, h28, h29, h30, h31, h32, h33, h34, h35, h36, h37, h38, h39, h40, h41, h42, h43, h44, h45, h46, h47, h48, -⟩ := h
  unfold map_intent_impl
  rw [if_neg h1,
    if_neg h2,
    if_neg h3,
    if_neg h4,
    if_neg h5,
    if_neg h6,
    if_neg h7,
    if_neg h8,
    if_neg h9,
    if_neg h10,
    if_neg h11,
    if_neg h12,
    if_neg h13,
    if_neg h14,
    if_neg h15,
    if_neg h16,
    if_neg h17,
    if_neg h18,
    if_neg h19,
    if_neg h20,
    if_neg h21,
    if_neg h22,
    if_neg h23,
    if_neg (not_or.mpr ⟨h24, h25⟩),
    if_neg (not_or.mpr ⟨h26, h27⟩),
    if_neg h28,
    if_neg h29,
    if_neg h30,
    if_neg h31,
    if_neg h32,
    if_neg h33,
    if_neg h34,
    if_neg h35,
    if_neg h36,
    if_neg h37,
    if_neg h38,
    if_neg (not_or.mpr ⟨h39, not_or.mpr ⟨h40, not_or.mpr ⟨h41, not_or.mpr ⟨h42, h43⟩⟩⟩⟩),
    if_neg h44,
    if_neg h45,
    if_neg h46,
    if_neg h47,
    if_neg h41,
    if_neg h48]


/-- C3: for the first alias rule of kind Single matching the intent
case-insensitively, the rule defaults are merged into the caller
parameters insert-if-absent (caller values win for shared keys) and the
target intent is resolved through the direct mapping `map_intent_impl`
only, never through the alias table again. -/
theorem C3_single_alias_insert_if_absent (r : NLPResult) (cfg : AppConfig) (a : AliasConfig)
    (hfind : cfg.aliases.find? (aliasMatches r.intent) = some a)
    (hsingle : ∀ ct, a.command_type = some ct → strToLower ct ≠ "multi") :
    map_intent r (some cfg) =
      map_intent_impl ⟨a.intent, mergeOptParams r.parameters a.parameters⟩ ∧
    ∀ k v, getParam r.parameters k = some v →
      getParam (mergeOptParams r.parameters a.parameters) k = some v := by
  have h := try_apply_alias_of_find? hfind
  have happ : applyAlias r a =
      map_intent_impl ⟨a.intent, mergeOptParams r.parameters a.parameters⟩ := by
    obtain ⟨astr, aint, apar, acmd, asteps⟩ := a
    cases acmd with
    | none => rfl
    | some ct =>
      have hm : strToLower ct ≠ "multi" := hsingle ct rfl
      simp only [applyAlias, AliasConfig.command_type, AliasConfig.intent,
        AliasConfig.parameters, if_neg hm]
  constructor
  · simp only [map_intent, h, happ]
  · intro k v hv
    exact getParam_mergeOptParams_of_some hv

/-- C3 witness: caller parameter `app = firefox.exe` wins over the
`chrome.exe` default of the `open_chrome` alias. -/
theorem C3_witness :
    map_intent ⟨"open_chrome", [("app", "firefox.exe")]⟩ (some chromeConfig) =
      Action.LaunchApplication "firefox.exe" ∧
    getParam (mergeOptParams [("app", "firefox.exe")] chromeAlias.parameters) "app" =
      some "firefox.exe" := by
  have h := C3_single_alias_insert_if_absent ⟨"open_chrome", [("app", "firefox.exe")]⟩
    chromeConfig chromeAlias rfl (fun ct hct => nomatch hct)
  exact ⟨h.1.trans rfl, h.2 "app" "firefox.exe" rfl⟩

/-- C1 (amended): for the first matching alias rule of kind Multi with
step list `steps`, resolution yields `MultiStep` with exactly
`steps.length` elements in declaration order, each step resolved from a
fresh copy of the original caller parameters merged with that step rule
defaults -- but through the direct mapping `map_intent_impl` only, with
no nested alias lookup. -/
theorem C1_multi_alias_steps_direct_mapping (r : NLPResult) (cfg : AppConfig)
    (a : AliasConfig) (ct : String) (steps : List AliasConfig)
    (hfind : cfg.aliases.find? (aliasMatches r.intent) = some a)
    (hct : a.command_type = some ct) (hmulti : strToLower ct = "multi")
    (hsteps : a.steps = some steps) :
    map_intent r (some cfg) =
      Action.MultiStep (steps.map (fun st => map_intent_impl (stepResult r st))) ∧
    (steps.map (fun st => map_intent_impl (stepResult r st))).length = steps.length := by
  have h := try_apply_alias_of_find? hfind
  have happ : applyAlias r a =
      Action.MultiStep (steps.map (fun st => map_intent_impl (stepResult r st))) := by
    obtain ⟨astr, aint, apar, acmd, asteps⟩ := a
    simp only [AliasConfig.command_type] at hct
    simp only [AliasConfig.steps] at hsteps
    subst hct
    subst hsteps
    simp only [applyAlias, AliasConfig.command_type, AliasConfig.steps, if_pos hmulti]
  refine ⟨?_, List.length_map _ _⟩
  simp only [map_intent, h, happ]

/-- C1 witness: the `macro1` multi alias resolves to a one-element
`MultiStep` built from the step rule on the original parameters. -/
theorem C1_witness :
    map_intent ⟨"macro1", []⟩ (some macroConfig) =
      Action.MultiStep [map_intent_impl (stepResult ⟨"macro1", []⟩ chromeStep)] ∧
    [map_intent_impl (stepResult ⟨"macro1", []⟩ chromeStep)].length = [chromeStep].length := by
  have h := C1_multi_alias_steps_direct_mapping ⟨"macro1", []⟩ macroConfig macroAlias
    "multi" [chromeStep] rfl rfl rfl rfl
  exact h

/-- C1 counterexample: in `macroConfig` the single step of `macro1`
targets `open_chrome`, which is itself an alias of the same table.  The
code resolves the step to `Unknown` through the direct mapping, while a
resolution "with nested alias lookups allowed" would give
`LaunchApplication chrome.exe`; the two differ, refuting the claim as
stated. -/
theorem C1_counterexample :
    map_intent ⟨"macro1", []⟩ (some macroConfig) =
      Action.MultiStep [Action.Unknown fallbackHint] ∧
    map_intent ⟨"open_chrome", []⟩ (some macroConfig) =
      Action.LaunchApplication "chrome.exe" ∧
    map_intent ⟨"macro1", []⟩ (some macroConfig) ≠
      Action.MultiStep [map_intent ⟨"open_chrome", []⟩ (some macroConfig)] := by
  refine ⟨rfl, rfl, fun h => ?_⟩
  rw [show map_intent ⟨"macro1", []⟩ (some macroConfig) =
        Action.MultiStep [Action.Unknown fallbackHint] from rfl,
      show map_intent ⟨"open_chrome", []⟩ (some macroConfig) =
        Action.LaunchApplication "chrome.exe" from rfl] at h
  injection h with h1
  injection h1 with h2 h3
  exact Action.noConfusion h2

/-- C4: every intent outside the known set maps to `Action.Unknown`
whose hint is the caller-supplied `hint` parameter when present and the
fixed fallback message otherwise; `map_intent_impl` is a total function,
so the mapping never fails. -/
theorem C4_unknown_intent_fallback (r : NLPResult) (h : r.intent ∉ knownIntents) :
    map_intent_impl r = Action.Unknown ((getParam r.parameters "hint").getD fallbackHint) :=
  map_intent_impl_of_unknown_intent r h

/-- C4 witness: the unrecognized intent `frobnicate` with no hint
parameter yields `Unknown` with the fixed fallback message. -/
theorem C4_witness :
    "frobnicate" ∉ knownIntents ∧
    map_intent_impl ⟨"frobnicate", []⟩ = Action.Unknown fallbackHint :=
  ⟨by decide, (C4_unknown_intent_fallback ⟨"frobnicate", []⟩ (by decide)).trans rfl⟩

set_option maxHeartbeats 1000000 in
/-- C9: the direct mapping of intent `delete_file` is caught by the
earlier `copy_file | cut_file | delete_file | move_file | rename_file`
arm, yielding `FileOperation` with operation `delete_file`; the
dedicated `DeleteFile` arm lower in the match is unreachable, so no
intent ever produces `Action.DeleteFile`. -/
theorem C9_delete_file_shadowed :
    (∀ params : ParameterMap,
      map_intent_impl ⟨"delete_file", params⟩ = Action.FileOperation "delete_file") ∧
    (∀ (r : NLPResult) (name : String), map_intent_impl r ≠ Action.DeleteFile name) := by
  constructor
  · intro params; rfl
  · intro r name
    obtain ⟨ri, rp⟩ := r
    by_cases hk : ri ∈ knownIntents
    · simp only [knownIntents, List.mem_cons, List.mem_singleton] at hk
      rcases hk with rfl | rfl | rfl | rfl | rfl | rfl | rfl | rfl | rfl | rfl | rfl | rfl | rfl | rfl | rfl | rfl | rfl | rfl | rfl | rfl | rfl | rfl | rfl | rfl | rfl | rfl | rfl | rfl | rfl | rfl | rfl | rfl | rfl | rfl | rfl | rfl | rfl | rfl | rfl | rfl | rfl | rfl | rfl | rfl | rfl | rfl | rfl | rfl | h0
      all_goals try exact fun h2 => Action.noConfusion h2
      exact absurd h0 (List.not_mem_nil ri)
    · rw [map_intent_impl_of_unknown_intent ⟨ri, rp⟩ hk]
      exact fun h2 => Action.noConfusion h2

/-- C9 witness: `delete_file` with a `name` parameter still yields
`FileOperation`, not `DeleteFile`. -/
theorem C9_witness :
    map_intent_impl ⟨"delete_file", [("name", "x")]⟩ = Action.FileOperation "delete_file" ∧
    map_intent_impl ⟨"delete_file", [("name", "x")]⟩ ≠ Action.DeleteFile "x" :=
  ⟨C9_delete_file_shadowed.1 [("name", "x")],
   C9_delete_file_shadowed.2 ⟨"delete_file", [("name", "x")]⟩ "x"⟩

/-- Prefixes of steps that all succeed do not change the outcome of the
remaining steps. -/
theorem execSteps_append_of_ok (ctrl : Controller) (pre l : List Action)
    (h : ∀ s ∈ pre, execute_action_on_platform ctrl s = Except.ok ()) :
    execSteps ctrl (pre ++ l) = execSteps ctrl l := by
  induction pre with
  | nil => rfl
  | cons s rest ih =>
    have hs : execute_action_on_platform ctrl s = Except.ok () := h s (by simp)
    rw [List.cons_append]
    rw [execSteps, hs]
    exact ih (fun u hu => h u (by simp [hu]))

/-- A step list whose members all succeed executes to success. -/
theorem execSteps_ok_of_all_ok (ctrl : Controller) (l : List Action)
    (h : ∀ s ∈ l, execute_action_on_platform ctrl s = Except.ok ()) :
    execSteps ctrl l = Except.ok () := by
  induction l with
  | nil => rfl
  | cons s rest ih =>
    have hs : execute_action_on_platform ctrl s = Except.ok () := h s (by simp)
    rw [execSteps, hs]
    exact ih (fun u hu => h u (by simp [hu]))

/-- C10: executing `MultiStep` runs the steps in order and stops at the
first failing step, returning that step's error; the steps after the
failing one do not influence the result (they are never executed).  If
every step succeeds, the whole `MultiStep` succeeds. -/
theorem C10_multistep_short_circuit (ctrl : Controller) :
    (∀ (pre : List Action) (bad : Action) (post : List Action) (e : String),
      (∀ s ∈ pre, execute_action_on_platform ctrl s = Except.ok ()) →
      execute_action_on_platform ctrl bad = Except.error e →
      execute_action_on_platform ctrl (Action.MultiStep (pre ++ bad :: post)) =
        Except.error e) ∧
    (∀ steps : List Action,
      (∀ s ∈ steps, execute_action_on_platform ctrl s = Except.ok ()) →
      execute_action_on_platform ctrl (Action.MultiStep steps) = Except.ok ()) := by
  constructor
  · intro pre bad post e hpre hbad
    rw [execute_action_on_platform, execSteps_append_of_ok ctrl pre _ hpre]
    rw [execSteps, hbad]
  · intro steps hsteps
    rw [execute_action_on_platform]
    exact execSteps_ok_of_all_ok ctrl steps hsteps

/-- C10 witness: with a controller failing only on `Screenshot`, a
three-step composite stops at the failing second step, and an all-good
composite succeeds. -/
theorem C10_witness :
    execute_action_on_platform screenshotFails
      (Action.MultiStep
        [Action.WindowCloseAll, Action.Screenshot, Action.WindowMinimizeAll]) =
      Except.error "boom" ∧
    execute_action_on_platform screenshotFails
      (Action.MultiStep [Action.WindowCloseAll, Action.WindowMinimizeAll]) =
      Except.ok () := by
  have h := C10_multistep_short_circuit screenshotFails
  constructor
  · exact h.1 [Action.WindowCloseAll] Action.Screenshot [Action.WindowMinimizeAll] "boom"
      (by intro s hs; fin_cases hs; rfl)
      rfl
  · exact h.2 [Action.WindowCloseAll, Action.WindowMinimizeAll]
      (by intro s hs; fin_cases hs <;> rfl)

/-- An event with no successful load never changes the configuration. -/
theorem applyWatchEvent_of_loadOk_none {current : Option AppConfig} {ev : WatchEvent}
    (h : ev.loadOk = none) : applyWatchEvent current ev = current := by
  cases ev with
  | write load => cases load with
    | ok c => simp [WatchEvent.loadOk] at h
    | error e => rfl
  | create load => cases load with
    | ok c => simp [WatchEvent.loadOk] at h
    | error e => rfl
  | other => rfl

/-- C8: a reload whose load or validation fails retains the previous
in-memory configuration unchanged (the watcher only prints the error and
keeps looping), so across any sequence of failed reloads and ignored
events the last-good table keeps being served. -/
theorem C8_failed_reload_keeps_table :
    (∀ (current : Option AppConfig) (e : String),
      applyWatchEvent current (WatchEvent.write (Except.error e)) = current ∧
      applyWatchEvent current (WatchEvent.create (Except.error e)) = current) ∧
    (∀ (current : Option AppConfig) (evs : List WatchEvent),
      (∀ ev ∈ evs, ev.loadOk = none) → runWatcher current evs = current) := by
  constructor
  · intro current e
    exact ⟨rfl, rfl⟩
  · intro current evs
    induction evs generalizing current with
    | nil => intro h; rfl
    | cons ev rest ih =>
      intro h
      have h1 : applyWatchEvent current ev = current :=
        applyWatchEvent_of_loadOk_none (h ev (by simp))
      show runWatcher (applyWatchEvent current ev) rest = current
      rw [h1]
      exact ih current (fun u hu => h u (by simp [hu]))

/-- C8 witness: a failed reload, followed by an ignored event, leaves
the chrome alias table in place. -/
theorem C8_witness :
    applyWatchEvent (some chromeConfig) (WatchEvent.write (Except.error "bad json")) =
      some chromeConfig ∧
    runWatcher (some chromeConfig)
      [WatchEvent.write (Except.error "bad json"), WatchEvent.other] =
      some chromeConfig := by
  have h := C8_failed_reload_keeps_table
  exact ⟨(h.1 (some chromeConfig) "bad json").1,
         h.2 (some chromeConfig)
           [WatchEvent.write (Except.error "bad json"), WatchEvent.other]
           (by intro ev hev; fin_cases hev <;> rfl)⟩

/-- Unfolding equation for `lookupTask` on a cons cell. -/
theorem lookupTask_cons {α : Type} (k : Nat) (v : α) (rest : List (Nat × α)) (i : Nat) :
    lookupTask ((k, v) :: rest) i = if k = i then some v else lookupTask rest i := rfl

/-- Unfolding equation for `removeTask` on a cons cell. -/
theorem removeTask_cons {α : Type} (k : Nat) (v : α) (rest : List (Nat × α)) (id2 : Nat) :
    removeTask ((k, v) :: rest) id2 =
      if k = id2 then removeTask rest id2 else (k, v) :: removeTask rest id2 := rfl

/-- Unfolding equation for `setTask` on a cons cell. -/
theorem setTask_cons {α : Type} (k : Nat) (w : α) (rest : List (Nat × α)) (id2 : Nat) (v : α) :
    setTask ((k, w) :: rest) id2 v =
      (if k = id2 then (id2, v) else (k, w)) :: setTask rest id2 v := by
  simp [setTask]

/-- Looking up a key just removed yields nothing. -/
theorem lookupTask_removeTask_self {α : Type} (l : List (Nat × α)) (id2 : Nat) :
    lookupTask (removeTask l id2) id2 = none := by
  induction l with
  | nil => rfl
  | cons p rest ih =>
    obtain ⟨k, v⟩ := p
    rw [removeTask_cons]
    by_cases hk : k = id2
    · rw [if_pos hk]
      exact ih
    · rw [if_neg hk, lookupTask_cons, if_neg hk]
      exact ih

/-- C6: stopping an id with no registry entry answers not-found and
leaves the registry unchanged; stopping the same id twice always answers
not-found the second time, because a found record is removed by the
first stop. -/
theorem C6_cancel_not_found_idempotent :
    (∀ (id2 : Nat) (tasks : List (Nat × TaskRecord)),
      lookupTask tasks id2 = none →
      stop_task id2 tasks = (StopResponse.notFound, tasks)) ∧
    (∀ (id2 : Nat) (tasks : List (Nat × TaskRecord)),
      (stop_task id2 (stop_task id2 tasks).2).1 = StopResponse.notFound) := by
  constructor
  · intro id2 tasks h
    unfold stop_task
    rw [h]
  · intro id2 tasks
    cases hl : lookupTask tasks id2 with
    | none =>
      unfold stop_task
      rw [hl]
      simp only
      rw [hl]
    | some rec =>
      unfold stop_task
      rw [hl]
      simp only
      rw [lookupTask_removeTask_self]

/-- C6 witness: stopping an absent id answers not-found with the
registry unchanged, and a second stop of a just-removed id also answers
not-found. -/
theorem C6_witness :
    stop_task 7 [(0, sampleRecord)] = (StopResponse.notFound, [(0, sampleRecord)]) ∧
    (stop_task 0 (stop_task 0 [(0, sampleRecord)]).2).1 = StopResponse.notFound :=
  ⟨C6_cancel_not_found_idempotent.1 7 [(0, sampleRecord)] rfl,
   C6_cancel_not_found_idempotent.2 0 [(0, sampleRecord)]⟩

/-! ### Trace and registry lemmas for the state machine -/

/-- Status writes through a `write` event. -/
theorem statusWrites_write_cons (i id2 : Nat) (st : TaskStatus) (tr : List Event) :
    statusWrites id2 (Event.write i st :: tr) =
      if i = id2 then st :: statusWrites id2 tr else statusWrites id2 tr := by
  by_cases h : i = id2 <;>
    simp [statusWrites, List.filterMap_cons, Event.writeFor, h]

/-- Status writes ignore events that write nothing for the id. -/
theorem statusWrites_cons_of_none {id2 : Nat} {e : Event} (tr : List Event)
    (h : Event.writeFor id2 e = none) :
    statusWrites id2 (e :: tr) = statusWrites id2 tr := by
  simp [statusWrites, List.filterMap_cons, h]

/-- `execStart` writes no status. -/
theorem writeFor_execStart (id2 i : Nat) : Event.writeFor id2 (Event.execStart i) = none := rfl

/-- `execEnd` writes no status. -/
theorem writeFor_execEnd (id2 i : Nat) : Event.writeFor id2 (Event.execEnd i) = none := rfl

/-- `workerExit` writes no status. -/
theorem writeFor_workerExit (id2 : Nat) : Event.writeFor id2 Event.workerExit = none := rfl

/-- A trace mentioning only ids below a bound has no writes for ids at
or above it. -/
theorem statusWrites_eq_nil_of_lt {tr : List Event} {n id2 : Nat}
    (h : ∀ e ∈ tr, ∀ i, Event.idOf e = some i → i < n) (hid : n ≤ id2) :
    statusWrites id2 tr = [] := by
  induction tr with
  | nil => rfl
  | cons e rest ih =>
    have hrest : statusWrites id2 rest = [] := ih (fun u hu => h u (by simp [hu]))
    cases e with
    | write i st =>
      have hi : i < n := h (Event.write i st) (by simp) i rfl
      rw [statusWrites_write_cons, if_neg (by omega)]
      exact hrest
    | execStart i =>
      rw [statusWrites_cons_of_none rest (writeFor_execStart id2 i)]
      exact hrest
    | execEnd i =>
      rw [statusWrites_cons_of_none rest (writeFor_execEnd id2 i)]
      exact hrest
    | workerExit =>
      rw [statusWrites_cons_of_none rest (writeFor_workerExit id2)]
      exact hrest

/-- A status write present in the trace appears among the status writes
of its id. -/
theorem mem_statusWrites_of_mem {tr : List Event} {i : Nat} {st : TaskStatus}
    (h : Event.write i st ∈ tr) : st ∈ statusWrites i tr := by
  induction tr with
  | nil => simp at h
  | cons e rest ih =>
    rcases List.mem_cons.mp h with he | he
    · rw [← he, statusWrites_write_cons, if_pos rfl]
      exact List.mem_cons_self st _
    · have hrest := ih he
      cases e with
      | write j st2 =>
        rw [statusWrites_write_cons]
        by_cases hj : j = i
        · rw [if_pos hj]
          exact List.mem_cons_of_mem _ hrest
        · rw [if_neg hj]
          exact hrest
      | execStart j =>
        rw [statusWrites_cons_of_none rest (writeFor_execStart i j)]
        exact hrest
      | execEnd j =>
        rw [statusWrites_cons_of_none rest (writeFor_execEnd i j)]
        exact hrest
      | workerExit =>
        rw [statusWrites_cons_of_none rest (writeFor_workerExit i)]
        exact hrest

/-- Chronological starts through a cons. -/
theorem chronStarts_cons (e : Event) (tr : List Event) :
    chronStarts (e :: tr) = chronStarts tr ++ (Event.startId e).toList := by
  cases e <;> simp [chronStarts, List.filterMap_cons, Event.startId]

/-- Updating a present key keeps every other lookup unchanged. -/
theorem lookupTask_setTask_ne {α : Type} {l : List (Nat × α)} {id2 i : Nat} (v : α)
    (h : i ≠ id2) : lookupTask (setTask l id2 v) i = lookupTask l i := by
  induction l with
  | nil => rfl
  | cons p rest ih =>
    obtain ⟨k, w⟩ := p
    rw [setTask_cons]
    by_cases hk : k = id2
    · rw [if_pos hk, lookupTask_cons, lookupTask_cons]
      have h1 : ¬(id2 = i) := fun hh => h hh.symm
      rw [if_neg h1, if_neg (hk ▸ h1)]
      exact ih
    · rw [if_neg hk, lookupTask_cons, lookupTask_cons]
      by_cases hi : k = i
      · rw [if_pos hi, if_pos hi]
      · rw [if_neg hi, if_neg hi]
        exact ih

/-- Updating an absent key leaves its lookup absent. -/
theorem lookupTask_setTask_none {α : Type} {l : List (Nat × α)} {id2 : Nat} (v : α)
    (h : lookupTask l id2 = none) : lookupTask (setTask l id2 v) id2 = none := by
  induction l with
  | nil => rfl
  | cons p rest ih =>
    obtain ⟨k, w⟩ := p
    rw [lookupTask_cons] at h
    by_cases hk : k = id2
    · rw [if_pos hk] at h
      exact absurd h (by simp)
    · rw [if_neg hk] at h
      rw [setTask_cons, if_neg hk, lookupTask_cons, if_neg hk]
      exact ih h

/-- Every entry of `setTask l id2 v` has the key of some entry of `l`. -/
theorem mem_setTask {α : Type} {l : List (Nat × α)} {id2 : Nat} {v : α} {p : Nat × α}
    (h : p ∈ setTask l id2 v) : ∃ q ∈ l, p.1 = q.1 := by
  rw [setTask, List.mem_map] at h
  obtain ⟨q, hq, hpq⟩ := h
  refine ⟨q, hq, ?_⟩
  by_cases hk : q.1 = id2
  · rw [← hpq]
    simp [hk]
  · rw [← hpq]
    simp [hk]

/-- Entries surviving a removal were entries before. -/
theorem mem_removeTask {α : Type} {l : List (Nat × α)} {id2 : Nat} {p : Nat × α}
    (h : p ∈ removeTask l id2) : p ∈ l := by
  induction l with
  | nil => exact absurd h (by simp [removeTask])
  | cons q rest ih =>
    obtain ⟨k, w⟩ := q
    rw [removeTask_cons] at h
    by_cases hk : k = id2
    · rw [if_pos hk] at h
      exact List.mem_cons_of_mem _ (ih h)
    · rw [if_neg hk] at h
      rcases List.mem_cons.mp h with he | he
      · rw [he]
        exact List.mem_cons_self _ _
      · exact List.mem_cons_of_mem _ (ih he)

/-- Removing any key keeps every other lookup unchanged. -/
theorem lookupTask_removeTask_ne {α : Type} {l : List (Nat × α)} {id2 i : Nat}
    (h : i ≠ id2) : lookupTask (removeTask l id2) i = lookupTask l i := by
  induction l with
  | nil => rfl
  | cons p rest ih =>
    obtain ⟨k, w⟩ := p
    rw [removeTask_cons]
    by_cases hk : k = id2
    · rw [if_pos hk, lookupTask_cons, if_neg (by rw [hk]; exact fun hh => h hh.symm)]
      exact ih
    · rw [if_neg hk, lookupTask_cons, lookupTask_cons]
      by_cases hi : k = i
      · rw [if_pos hi, if_pos hi]
      · rw [if_neg hi, if_neg hi]
        exact ih

/-- A successful lookup exhibits an entry with the key. -/
theorem exists_mem_of_lookupTask {α : Type} {l : List (Nat × α)} {id2 : Nat} {v : α}
    (h : lookupTask l id2 = some v) : ∃ p ∈ l, p.1 = id2 := by
  induction l with
  | nil => exact absurd h (by simp [lookupTask])
  | cons p rest ih =>
    obtain ⟨k, w⟩ := p
    rw [lookupTask_cons] at h
    by_cases hk : k = id2
    · exact ⟨(k, w), List.mem_cons_self _ _, hk⟩
    · rw [if_neg hk] at h
      obtain ⟨q, hq, hq2⟩ := ih h
      exact ⟨q, List.mem_cons_of_mem _ hq, hq2⟩

/-- Starts are unchanged by a write event. -/
theorem startCount_cons_write (i : Nat) (st : TaskStatus) (tr : List Event) :
    startCount (Event.write i st :: tr) = startCount tr := by
  simp [startCount, List.filterMap_cons, Event.startId]

/-- Starts grow by one through an `execStart` event. -/
theorem startCount_cons_execStart (i : Nat) (tr : List Event) :
    startCount (Event.execStart i :: tr) = startCount tr + 1 := by
  simp [startCount, List.filterMap_cons, Event.startId]

/-- Starts are unchanged by an `execEnd` event. -/
theorem startCount_cons_execEnd (i : Nat) (tr : List Event) :
    startCount (Event.execEnd i :: tr) = startCount tr := by
  simp [startCount, List.filterMap_cons, Event.startId]

/-- Starts are unchanged by a `workerExit` event. -/
theorem startCount_cons_workerExit (tr : List Event) :
    startCount (Event.workerExit :: tr) = startCount tr := by
  simp [startCount, List.filterMap_cons, Event.startId]

/-- Completions are unchanged by a write event. -/
theorem endCount_cons_write (i : Nat) (st : TaskStatus) (tr : List Event) :
    endCount (Event.write i st :: tr) = endCount tr := by
  simp [endCount, List.filterMap_cons, Event.endId]

/-- Completions are unchanged by an `execStart` event. -/
theorem endCount_cons_execStart (i : Nat) (tr : List Event) :
    endCount (Event.execStart i :: tr) = endCount tr := by
  simp [endCount, List.filterMap_cons, Event.endId]

/-- Completions grow by one through an `execEnd` event. -/
theorem endCount_cons_execEnd (i : Nat) (tr : List Event) :
    endCount (Event.execEnd i :: tr) = endCount tr + 1 := by
  simp [endCount, List.filterMap_cons, Event.endId]

/-- Completions are unchanged by a `workerExit` event. -/
theorem endCount_cons_workerExit (tr : List Event) :
    endCount (Event.workerExit :: tr) = endCount tr := by
  simp [endCount, List.filterMap_cons, Event.endId]

/-- Allowed write histories transport along states with the same
status writes and operation record for an id. -/
theorem writesOK_of_eq (s s2 : SysState) (i : Nat)
    (h1 : statusWrites i s2.trace = statusWrites i s.trace)
    (h2 : lookupTask s2.ops i = lookupTask s.ops i)
    (h : writesOK s i) : writesOK s2 i := by
  unfold writesOK at *
  rw [h1, h2]
  exact h

/-- The initial state satisfies the invariant. -/
theorem inv_init : Inv initState := by
  constructor <;>
    simp [initState, writesOK, statusWrites, chronStarts, startCount, endCount]

theorem inv_step {s s' : SysState} (hi : Inv s) (hs : Step s s') : Inv s' := by
  cases hs with
  | submit op =>
    have hwn : statusWrites s.nextId s.trace = [] :=
      statusWrites_eq_nil_of_lt hi.trace_lt (Nat.le_refl _)
    refine ⟨?_, ?_, ?_, ?_, ?_, ?_, ?_, ?_, ?_, ?_, ?_, ?_, ?_, ?_, ?_, ?_⟩
    · intro p hp
      rcases List.mem_cons.mp hp with rfl | hp2
      · exact Nat.lt_succ_self _
      · exact Nat.lt_succ_of_lt (hi.reg_lt p hp2)
    · intro t ht
      by_cases hchan : s.chanOpen = true
      · simp only [hchan, if_true] at ht
        rcases List.mem_append.mp ht with ht2 | ht2
        · exact Nat.lt_succ_of_lt (hi.queue_lt t ht2)
        · rw [List.mem_singleton] at ht2
          rw [ht2]
          exact Nat.lt_succ_self _
      · rw [Bool.not_eq_true] at hchan
        simp only [hchan, if_false] at ht
        exact Nat.lt_succ_of_lt (hi.queue_lt t ht)
    · intro t ht
      exact Nat.lt_succ_of_lt (hi.run_lt t ht)
    · intro i hic
      exact Nat.lt_succ_of_lt (hi.cancel_lt i hic)
    · intro e he i hei
      rcases List.mem_cons.mp he with rfl | he2
      · simp only [Event.idOf, Option.some.injEq] at hei
        show i < s.nextId + 1
        omega
      · exact Nat.lt_succ_of_lt (hi.trace_lt e he2 i hei)
    · intro i hic
      have hlt := hi.cancel_lt i hic
      rw [lookupTask_cons, if_neg (by omega)]
      exact hi.cancel_reg i hic
    · by_cases hchan : s.chanOpen = true
      · have hn : s.nextId ∉ s.queue.map MTask.id := by
          intro hmem
          obtain ⟨t, ht, hid⟩ := List.mem_map.mp hmem
          have := hi.queue_lt t ht
          omega
        simp only [hchan, if_true, List.map_append, List.map_cons, List.map_nil]
        rw [List.nodup_append]
        exact ⟨hi.queue_nodup, List.nodup_singleton _,
          fun a ha hb => by rw [List.mem_singleton] at hb; rw [hb] at ha; exact hn ha⟩
      · rw [Bool.not_eq_true] at hchan
        simp only [hchan, if_false]
        exact hi.queue_nodup
    · intro t ht u hu
      have hlt := hi.run_lt t ht
      by_cases hchan : s.chanOpen = true
      · simp only [hchan, if_true] at hu
        rcases List.mem_append.mp hu with hu2 | hu2
        · exact hi.run_notin_queue t ht u hu2
        · rw [List.mem_singleton] at hu2
          rw [hu2]
          intro hh
          simp only at hh
          omega
      · rw [Bool.not_eq_true] at hchan
        simp only [hchan, if_false] at hu
        exact hi.run_notin_queue t ht u hu
    · intro t ht
      by_cases hchan : s.chanOpen = true
      · simp only [hchan, if_true] at ht
        rcases List.mem_append.mp ht with ht2 | ht2
        · have hlt := hi.queue_lt t ht2
          rw [lookupTask_cons, if_neg (by omega)]
          exact hi.queue_ops t ht2
        · rw [List.mem_singleton] at ht2
          rw [ht2, lookupTask_cons, if_pos rfl]
      · rw [Bool.not_eq_true] at hchan
        simp only [hchan, if_false] at ht
        have hlt := hi.queue_lt t ht
        rw [lookupTask_cons, if_neg (by omega)]
        exact hi.queue_ops t ht
    · intro t ht
      have hlt := hi.run_lt t ht
      rw [lookupTask_cons, if_neg (by omega)]
      exact hi.run_ops t ht
    · intro t ht
      by_cases hchan : s.chanOpen = true
      · simp only [hchan, if_true] at ht
        rcases List.mem_append.mp ht with ht2 | ht2
        · have hlt := hi.queue_lt t ht2
          rw [statusWrites_write_cons, if_neg (by omega)]
          exact hi.queue_writes t ht2
        · rw [List.mem_singleton] at ht2
          rw [ht2, statusWrites_write_cons]
          simp [hwn]
      · rw [Bool.not_eq_true] at hchan
        simp only [hchan, if_false] at ht
        have hlt := hi.queue_lt t ht
        rw [statusWrites_write_cons, if_neg (by omega)]
        exact hi.queue_writes t ht
    · intro t ht
      have hlt := hi.run_lt t ht
      rw [statusWrites_write_cons, if_neg (by omega)]
      exact hi.run_writes t ht
    · intro i
      by_cases hin : s.nextId = i
      · refine Or.inr (Or.inl ?_)
        rw [statusWrites_write_cons, if_pos hin]
        rw [← hin, hwn]
      · rcases hi.writes_ok i with h | h | ⟨op0, hop, hw⟩
        · exact Or.inl (by rw [statusWrites_write_cons, if_neg hin]; exact h)
        · exact Or.inr (Or.inl (by rw [statusWrites_write_cons, if_neg hin]; exact h))
        · refine Or.inr (Or.inr ⟨op0, ?_, ?_⟩)
          · rw [lookupTask_cons, if_neg hin]
            exact hop
          · rw [statusWrites_write_cons, if_neg hin]
            exact hw
    · have hch : chronStarts (Event.write s.nextId TaskStatus.queued :: s.trace) =
          chronStarts s.trace := by
        rw [chronStarts_cons]
        simp [Event.startId]
      by_cases hchan : s.chanOpen = true
      · simp only [hchan, if_true]
        rw [hch, List.map_append, ← List.append_assoc, hi.fifo]
        simp
      · rw [Bool.not_eq_true] at hchan
        simp only [hchan, if_false]
        rw [hch]
        exact hi.fifo
    · rw [startCount_cons_write, endCount_cons_write]
      exact hi.counts
    · exact hi.dead_run
  | workerBegin t rest halive hrun hqueue =>
    have htmem : t ∈ s.queue := by
      rw [hqueue]
      exact List.mem_cons_self t rest
    have htlt : t.id < s.nextId := hi.queue_lt t htmem
    have hnodup : (t.id :: rest.map MTask.id).Nodup := by
      have := hi.queue_nodup
      rw [hqueue, List.map_cons] at this
      exact this
    refine ⟨?_, ?_, ?_, ?_, ?_, ?_, ?_, ?_, ?_, ?_, ?_, ?_, ?_, ?_, ?_, ?_⟩
    · exact hi.reg_lt
    · intro u hu
      exact hi.queue_lt u (by rw [hqueue]; exact List.mem_cons_of_mem t hu)
    · intro u hu
      cases Option.some.inj hu
      exact htlt
    · exact hi.cancel_lt
    · intro e he i hei
      rcases List.mem_cons.mp he with rfl | he2
      · simp only [Event.idOf, Option.some.injEq] at hei
        rw [← hei]
        exact htlt
      · exact hi.trace_lt e he2 i hei
    · exact hi.cancel_reg
    · exact hnodup.of_cons
    · intro u hu v hv
      cases Option.some.inj hu
      intro hvt
      exact (List.nodup_cons.mp hnodup).1 (hvt ▸ List.mem_map_of_mem MTask.id hv)
    · intro u hu
      exact hi.queue_ops u (by rw [hqueue]; exact List.mem_cons_of_mem t hu)
    · intro u hu
      cases Option.some.inj hu
      exact hi.queue_ops t htmem
    · intro u hu
      rw [statusWrites_cons_of_none _ (writeFor_execStart u.id t.id)]
      exact hi.queue_writes u (by rw [hqueue]; exact List.mem_cons_of_mem t hu)
    · intro u hu
      cases Option.some.inj hu
      rw [statusWrites_cons_of_none _ (writeFor_execStart t.id t.id)]
      exact hi.queue_writes t htmem
    · intro i
      refine writesOK_of_eq s _ i ?_ rfl (hi.writes_ok i)
      exact statusWrites_cons_of_none _ (writeFor_execStart i t.id)
    · rw [chronStarts_cons]
      simp only [Event.startId, Option.toList_some, List.append_assoc, List.singleton_append]
      rw [← List.map_cons, ← hqueue]
      exact hi.fifo
    · rw [startCount_cons_execStart, endCount_cons_execStart]
      have hc := hi.counts
      rw [hrun] at hc
      have hc2 : startCount s.trace = endCount s.trace := hc
      show startCount s.trace + 1 = endCount s.trace + 1
      omega
    · intro hdead
      rw [halive] at hdead
      exact absurd hdead (by decide)
  | workerFinish t hrun =>
    have htlt : t.id < s.nextId := hi.run_lt t hrun
    by_cases hreg : (lookupTask s.registry t.id).isSome = true
    · rw [if_pos hreg, if_pos hreg, List.singleton_append]
      refine ⟨?_, ?_, ?_, ?_, ?_, ?_, ?_, ?_, ?_, ?_, ?_, ?_, ?_, ?_, ?_, ?_⟩
      · intro p hp
        obtain ⟨q, hq, hpq⟩ := mem_setTask hp
        rw [hpq]
        exact hi.reg_lt q hq
      · exact hi.queue_lt
      · intro u hu
        exact Option.noConfusion hu
      · exact hi.cancel_lt
      · intro e he i hei
        rcases List.mem_cons.mp he with rfl | he2
        · simp only [Event.idOf, Option.some.injEq] at hei
          rw [← hei]
          exact htlt
        · rcases List.mem_cons.mp he2 with rfl | he3
          · simp only [Event.idOf, Option.some.injEq] at hei
            rw [← hei]
            exact htlt
          · exact hi.trace_lt e he3 i hei
      · intro i hic
        have hnone := hi.cancel_reg i hic
        by_cases hit : i = t.id
        · rw [hit] at hnone ⊢
          exact lookupTask_setTask_none _ hnone
        · rw [lookupTask_setTask_ne _ hit]
          exact hnone
      · exact hi.queue_nodup
      · intro u hu
        exact Option.noConfusion hu
      · exact hi.queue_ops
      · intro u hu
        exact Option.noConfusion hu
      · intro u hu
        have hne : u.id ≠ t.id := hi.run_notin_queue t hrun u hu
        rw [statusWrites_write_cons, if_neg (fun h => hne h.symm),
            statusWrites_cons_of_none _ (writeFor_execEnd u.id t.id)]
        exact hi.queue_writes u hu
      · intro u hu
        exact Option.noConfusion hu
      · intro i
        by_cases hit : i = t.id
        · subst hit
          refine Or.inr (Or.inr ⟨t.op, hi.run_ops t hrun, ?_⟩)
          rw [statusWrites_write_cons, if_pos rfl,
              statusWrites_cons_of_none _ (writeFor_execEnd t.id t.id),
              hi.run_writes t hrun]
        · refine writesOK_of_eq s _ i ?_ rfl (hi.writes_ok i)
          rw [statusWrites_write_cons, if_neg (fun h => hit h.symm),
              statusWrites_cons_of_none _ (writeFor_execEnd i t.id)]
      · rw [chronStarts_cons, chronStarts_cons]
        simp only [Event.startId, Option.toList_none, List.append_nil]
        exact hi.fifo
      · rw [startCount_cons_write, startCount_cons_execEnd,
            endCount_cons_write, endCount_cons_execEnd]
        have hc := hi.counts
        rw [hrun] at hc
        have hc2 : startCount s.trace = endCount s.trace + 1 := hc
        show startCount s.trace = endCount s.trace + 1 + 0
        omega
      · intro _
        rfl
    · rw [Bool.not_eq_true] at hreg
      have hregne : ¬((lookupTask s.registry t.id).isSome = true) := by
        rw [hreg]
        exact Bool.false_ne_true
      rw [if_neg hregne, if_neg hregne, List.nil_append]
      refine ⟨?_, ?_, ?_, ?_, ?_, ?_, ?_, ?_, ?_, ?_, ?_, ?_, ?_, ?_, ?_, ?_⟩
      · exact hi.reg_lt
      · exact hi.queue_lt
      · intro u hu
        exact Option.noConfusion hu
      · exact hi.cancel_lt
      · intro e he i hei
        rcases List.mem_cons.mp he with rfl | he2
        · simp only [Event.idOf, Option.some.injEq] at hei
          rw [← hei]
          exact htlt
        · exact hi.trace_lt e he2 i hei
      · exact hi.cancel_reg
      · exact hi.queue_nodup
      · intro u hu
        exact Option.noConfusion hu
      · exact hi.queue_ops
      · intro u hu
        exact Option.noConfusion hu
      · intro u hu
        rw [statusWrites_cons_of_none _ (writeFor_execEnd u.id t.id)]
        exact hi.queue_writes u hu
      · intro u hu
        exact Option.noConfusion hu
      · intro i
        refine writesOK_of_eq s _ i ?_ rfl (hi.writes_ok i)
        exact statusWrites_cons_of_none _ (writeFor_execEnd i t.id)
      · rw [chronStarts_cons]
        simp only [Event.startId, Option.toList_none, List.append_nil]
        exact hi.fifo
      · rw [startCount_cons_execEnd, endCount_cons_execEnd]
        have hc := hi.counts
        rw [hrun] at hc
        have hc2 : startCount s.trace = endCount s.trace + 1 := hc
        show startCount s.trace = endCount s.trace + 1 + 0
        omega
      · intro _
        rfl
  | stopFound id2 st hlook =>
    have hid2lt : id2 < s.nextId := by
      obtain ⟨p, hp, hpid⟩ := exists_mem_of_lookupTask hlook
      rw [← hpid]
      exact hi.reg_lt p hp
    refine ⟨?_, ?_, ?_, ?_, ?_, ?_, ?_, ?_, ?_, ?_, ?_, ?_, ?_, ?_, ?_, ?_⟩
    · intro p hp
      exact hi.reg_lt p (mem_removeTask hp)
    · exact hi.queue_lt
    · exact hi.run_lt
    · intro i hic
      rcases List.mem_cons.mp hic with rfl | hic2
      · exact hid2lt
      · exact hi.cancel_lt i hic2
    · exact hi.trace_lt
    · intro i hic
      rcases List.mem_cons.mp hic with rfl | hic2
      · exact lookupTask_removeTask_self s.registry i
      · by_cases hii : i = id2
        · rw [hii]
          exact lookupTask_removeTask_self s.registry id2
        · rw [lookupTask_removeTask_ne hii]
          exact hi.cancel_reg i hic2
    · exact hi.queue_nodup
    · exact hi.run_notin_queue
    · exact hi.queue_ops
    · exact hi.run_ops
    · exact hi.queue_writes
    · exact hi.run_writes
    · intro i
      exact writesOK_of_eq s _ i rfl rfl (hi.writes_ok i)
    · exact hi.fifo
    · exact hi.counts
    · exact hi.dead_run
  | wrapperFire id2 hmem =>
    have hnone : lookupTask s.registry id2 = none := hi.cancel_reg id2 hmem
    have hregne : ¬((lookupTask s.registry id2).isSome = true) := by
      rw [hnone]
      exact Bool.false_ne_true
    rw [if_neg hregne, if_neg hregne]
    refine ⟨?_, ?_, ?_, ?_, ?_, ?_, ?_, ?_, ?_, ?_, ?_, ?_, ?_, ?_, ?_, ?_⟩
    · exact hi.reg_lt
    · exact hi.queue_lt
    · exact hi.run_lt
    · intro i hic
      exact hi.cancel_lt i (List.mem_of_mem_erase hic)
    · exact hi.trace_lt
    · intro i hic
      exact hi.cancel_reg i (List.mem_of_mem_erase hic)
    · exact hi.queue_nodup
    · exact hi.run_notin_queue
    · exact hi.queue_ops
    · exact hi.run_ops
    · exact hi.queue_writes
    · exact hi.run_writes
    · intro i
      exact writesOK_of_eq s _ i rfl rfl (hi.writes_ok i)
    · exact hi.fifo
    · exact hi.counts
    · exact hi.dead_run
  | closeChan =>
    exact ⟨hi.reg_lt, hi.queue_lt, hi.run_lt, hi.cancel_lt, hi.trace_lt, hi.cancel_reg,
      hi.queue_nodup, hi.run_notin_queue, hi.queue_ops, hi.run_ops, hi.queue_writes,
      hi.run_writes, fun i => writesOK_of_eq s _ i rfl rfl (hi.writes_ok i),
      hi.fifo, hi.counts, hi.dead_run⟩
  | workerEnd halive hrun hq hchan =>
    refine ⟨?_, ?_, ?_, ?_, ?_, ?_, ?_, ?_, ?_, ?_, ?_, ?_, ?_, ?_, ?_, ?_⟩
    · exact hi.reg_lt
    · exact hi.queue_lt
    · intro u hu
      rw [hrun] at hu
      exact Option.noConfusion hu
    · exact hi.cancel_lt
    · intro e he i hei
      rcases List.mem_cons.mp he with rfl | he2
      · exact Option.noConfusion hei
      · exact hi.trace_lt e he2 i hei
    · exact hi.cancel_reg
    · exact hi.queue_nodup
    · intro u hu
      rw [hrun] at hu
      exact Option.noConfusion hu
    · exact hi.queue_ops
    · intro u hu
      rw [hrun] at hu
      exact Option.noConfusion hu
    · intro u hu
      rw [statusWrites_cons_of_none _ (writeFor_workerExit u.id)]
      exact hi.queue_writes u hu
    · intro u hu
      rw [hrun] at hu
      exact Option.noConfusion hu
    · intro i
      refine writesOK_of_eq s _ i ?_ rfl (hi.writes_ok i)
      exact statusWrites_cons_of_none _ (writeFor_workerExit i)
    · rw [chronStarts_cons]
      simp only [Event.startId, Option.toList_none, List.append_nil]
      exact hi.fifo
    · rw [startCount_cons_workerExit, endCount_cons_workerExit]
      exact hi.counts
    · intro _
      exact hrun

/-- The invariant is preserved along any number of transitions. -/
theorem inv_steps {s t : SysState} (hi : Inv s) (h : Steps s t) : Inv t := by
  induction h with
  | refl => exact hi
  | tail h1 h2 ih => exact inv_step ih h2

/-- Every reachable state satisfies the invariant. -/
theorem inv_reach {s : SysState} (h : Reach s) : Inv s :=
  inv_steps inv_init h

/-- The demonstration run is reachable: three submissions followed by
three begin/finish worker rounds. -/
theorem demoFinal_reach : Reach demoFinal := by
  have h0 : Steps initState initState := Steps.refl initState
  have h1 := Steps.tail h0 (Step.submit initState none)
  have h2 := Steps.tail h1 (Step.submit _ (some "oops"))
  have h3 := Steps.tail h2 (Step.submit _ none)
  have h4 := Steps.tail h3 (Step.workerBegin _ ⟨0, none⟩ [⟨1, some "oops"⟩, ⟨2, none⟩] rfl rfl rfl)
  have h5 := Steps.tail h4 (Step.workerFinish _ ⟨0, none⟩ rfl)
  have h6 := Steps.tail h5 (Step.workerBegin _ ⟨1, some "oops"⟩ [⟨2, none⟩] rfl rfl rfl)
  have h7 := Steps.tail h6 (Step.workerFinish _ ⟨1, some "oops"⟩ rfl)
  have h8 := Steps.tail h7 (Step.workerBegin _ ⟨2, none⟩ [] rfl rfl rfl)
  have h9 := Steps.tail h8 (Step.workerFinish _ ⟨2, none⟩ rfl)
  exact h9

/-- A `Running` write is impossible in reachable states: it would appear
among the status writes of its id, which the invariant confines to
`Queued` and terminal statuses. -/
theorem no_running_write {s : SysState} (h : Reach s) (id2 : Nat) :
    Event.write id2 TaskStatus.running ∉ s.trace := by
  intro hmem
  have hw := (inv_reach h).writes_ok id2
  have hin := mem_statusWrites_of_mem hmem
  unfold writesOK at hw
  rcases hw with hw | hw | ⟨op0, hop, hw⟩ <;> rw [hw] at hin
  · exact absurd hin (List.not_mem_nil _)
  · rw [List.mem_singleton] at hin
    exact TaskStatus.noConfusion hin
  · rcases List.mem_cons.mp hin with h1 | h1
    · cases op0 <;> exact TaskStatus.noConfusion h1
    · rw [List.mem_singleton] at h1
      exact TaskStatus.noConfusion h1

/-- C2 (amended): in every reachable state, each task's observable
status history is the `Queued` write of its submission, optionally
followed by exactly one terminal write -- `Completed` when its recorded
operation outcome is success, `Failed(reason)` when it is an error --
written after the operation executes; `Running` is never written (the
operation runs while the registry still shows `Queued`), and no write
ever follows a terminal write. -/
theorem C2_status_lifecycle (s : SysState) (h : Reach s) :
    (∀ id2, writesOK s id2) ∧
    (∀ id2, Event.write id2 TaskStatus.running ∉ s.trace) :=
  ⟨fun id2 => (inv_reach h).writes_ok id2, fun id2 => no_running_write h id2⟩

/-- C2 counterexample: in the reachable state `demoFinal` the operation
of task 0 has started (and finished), yet no `Running` status write for
it occurs anywhere in the trace, refuting the claim that the status is
set to `Running` before the operation executes. -/
theorem C2_counterexample :
    Reach demoFinal ∧ Event.execStart 0 ∈ demoFinal.trace ∧
    Event.write 0 TaskStatus.running ∉ demoFinal.trace :=
  ⟨demoFinal_reach, by decide, by decide⟩

/-- C2 witness: in `demoFinal`, the failing task 1 shows the allowed
history and no `Running` write. -/
theorem C2_witness :
    writesOK demoFinal 1 ∧ Event.write 1 TaskStatus.running ∉ demoFinal.trace := by
  have h := C2_status_lifecycle demoFinal demoFinal_reach
  exact ⟨h.1 1, h.2 1⟩

/-- C5 (amended): the single worker starts operations in exact FIFO
submission order -- in every reachable state the chronological list of
started ids is a prefix of the ids enqueued in submission order -- and
runs each operation synchronously to completion before pulling the
next: starts and completions differ exactly by the currently running
task. -/
theorem C5_fifo_serial (s : SysState) (h : Reach s) :
    (∃ pending, chronStarts s.trace ++ pending = s.subOrder) ∧
    startCount s.trace = endCount s.trace +
      (match s.running with | some _ => 1 | none => 0) :=
  ⟨⟨s.queue.map MTask.id, (inv_reach h).fifo⟩, (inv_reach h).counts⟩

/-- C5 counterexample: in `demoFinal` tasks 0, 1, 2 were submitted in
that order and all three executed in FIFO order, yet the chronological
list of `Running` status writes is empty rather than `[0, 1, 2]`:
`Running` transitions are never observed, refuting the claim as
stated. -/
theorem C5_counterexample :
    Reach demoFinal ∧ demoFinal.subOrder = [0, 1, 2] ∧
    chronStarts demoFinal.trace = [0, 1, 2] ∧
    runningWrites demoFinal.trace = [] ∧
    runningWrites demoFinal.trace ≠ demoFinal.subOrder :=
  ⟨demoFinal_reach, by decide, by decide, by decide, by decide⟩

/-- C5 witness: in the drained state `demoFinal` every enqueued id has
started, in submission order, and starts equal completions. -/
theorem C5_witness :
    (∃ pending, chronStarts demoFinal.trace ++ pending = demoFinal.subOrder) ∧
    startCount demoFinal.trace = endCount demoFinal.trace := by
  have h := C5_fifo_serial demoFinal demoFinal_reach
  exact ⟨h.1, h.2⟩

/-- The channel has been closed in a reachable state. -/
theorem closedState_reach : Reach closedState :=
  Steps.tail (Steps.refl initState) (Step.closeChan initState)

/-- The worker has exited in a reachable state. -/
theorem deadState_reach : Reach deadState :=
  Steps.tail closedState_reach (Step.workerEnd closedState rfl rfl rfl rfl)

/-- A dead worker stays dead through any single step, and no operation
start is added. -/
theorem dead_step {a b : SysState} (hia : Inv a) (hdead : a.workerAlive = false)
    (hs : Step a b) :
    b.workerAlive = false ∧ chronStarts b.trace = chronStarts a.trace := by
  cases hs with
  | submit op =>
    refine ⟨hdead, ?_⟩
    rw [chronStarts_cons]
    simp [Event.startId]
  | workerBegin t rest halive hrun hqueue =>
    rw [hdead] at halive
    exact absurd halive (by decide)
  | workerFinish t hrun =>
    have h0 := hia.dead_run hdead
    rw [h0] at hrun
    exact Option.noConfusion hrun
  | stopFound id2 st hlook =>
    exact ⟨hdead, rfl⟩
  | wrapperFire id2 hmem =>
    refine ⟨hdead, ?_⟩
    show chronStarts (if (lookupTask a.registry id2).isSome = true
        then Event.write id2 TaskStatus.cancelled :: a.trace else a.trace) =
      chronStarts a.trace
    by_cases hreg : (lookupTask a.registry id2).isSome = true
    · rw [if_pos hreg, chronStarts_cons]
      simp [Event.startId]
    · rw [if_neg hreg]
  | closeChan =>
    exact ⟨hdead, rfl⟩
  | workerEnd halive hrun hq hchan =>
    rw [hdead] at halive
    exact absurd halive (by decide)

/-- C7: when the channel is closed and the queue drained, the
worker-exit transition (the `Err` branch of `rx.recv()`) is the step the
idle worker takes; and once the worker has exited, across any further
behaviour it never revives and no operation ever starts again -- no
submitted task is ever run after the exit. -/
theorem C7_channel_closed_worker_exits (s t : SysState) (hreach : Reach s) :
    (s.workerAlive = true → s.running = none → s.queue = [] → s.chanOpen = false →
      Step s { s with
        workerAlive := false,
        trace := Event.workerExit :: s.trace }) ∧
    (s.workerAlive = false → Steps s t →
      t.workerAlive = false ∧ chronStarts t.trace = chronStarts s.trace) := by
  constructor
  · intro h1 h2 h3 h4
    exact Step.workerEnd s h1 h2 h3 h4
  · intro hdead hsteps
    induction hsteps with
    | refl => exact ⟨hdead, rfl⟩
    | tail h1 h2 ih =>
      have hinv := inv_steps (inv_reach hreach) h1
      have hstep := dead_step hinv ih.1 h2
      exact ⟨hstep.1, hstep.2.trans ih.2⟩

/-- C7 witness: from the closed drained initial state the exit step
fires, and from the dead state nothing changes the start list. -/
theorem C7_witness :
    Step closedState { closedState with
      workerAlive := false,
      trace := Event.workerExit :: closedState.trace } ∧
    deadState.workerAlive = false ∧
    chronStarts deadState.trace = chronStarts deadState.trace := by
  have h1 := (C7_channel_closed_worker_exits closedState closedState closedState_reach).1
    rfl rfl rfl rfl
  have h2 := (C7_channel_closed_worker_exits deadState deadState deadState_reach).2
    rfl (Steps.refl deadState)
  exact ⟨h1, h2⟩

end WinNlp
